import Mathlib

/-!
Shallow embedding of msiglreith/pixels-android (src/src/lib.rs).

The program keeps a single World record of four i16 fields, advances it
once per frame tick (World::update), paints a 320x240 RGBA8 frame buffer
(World::draw), and runs a winit event loop (run) that creates/destroys the
render surface on Resumed/Suspended and exits on close request or render
failure.

i16 arithmetic is modelled over Int with explicit wrapping modulo 2^16
(release-mode Rust semantics for +, *= -1 and the usize -> i16 cast).
-/

/-- Two's-complement wrap of an integer into the i16 range [-32768, 32767].
Models the result of a Rust i16 arithmetic operation in release mode and of
an `as i16` cast. -/
def wrap16 (n : Int) : Int := (n + 32768) % 65536 - 32768

/-- WIDTH constant from lib.rs. -/
def WIDTH : Nat := 320

/-- HEIGHT constant from lib.rs. -/
def HEIGHT : Nat := 240

/-- BOX_SIZE constant from lib.rs (an i16). -/
def BOX_SIZE : Int := 64

/-- The application state: a box position and velocity, all i16 in the Rust
source. -/
structure World where
  box_x : Int
  box_y : Int
  velocity_x : Int
  velocity_y : Int
deriving DecidableEq, Repr

/-- Well-formedness: every field is within the i16 range, as the Rust type
i16 guarantees. -/
def World.wf (w : World) : Prop :=
  -32768 ≤ w.box_x ∧ w.box_x ≤ 32767 ∧
  -32768 ≤ w.box_y ∧ w.box_y ≤ 32767 ∧
  -32768 ≤ w.velocity_x ∧ w.velocity_x ≤ 32767 ∧
  -32768 ≤ w.velocity_y ∧ w.velocity_y ≤ 32767

instance (w : World) : Decidable w.wf := by
  unfold World.wf; infer_instance

/-- World::new, lib.rs lines 182-189. -/
def World.new : World :=
  { box_x := 24, box_y := 16, velocity_x := 1, velocity_y := 1 }

/-- World::update, lib.rs lines 192-202.  Flips a velocity component when
the corresponding boundary test fires, then advances the position by the
(possibly flipped) velocity.  Every i16 operation wraps. -/
def World.update (w : World) : World :=
  let vx := if w.box_x ≤ 0 ∨ 320 < wrap16 (w.box_x + BOX_SIZE)
            then wrap16 (-w.velocity_x) else w.velocity_x
  let vy := if w.box_y ≤ 0 ∨ 240 < wrap16 (w.box_y + BOX_SIZE)
            then wrap16 (-w.velocity_y) else w.velocity_y
  { box_x := wrap16 (w.box_x + vx)
    box_y := wrap16 (w.box_y + vy)
    velocity_x := vx
    velocity_y := vy }

theorem wrap16_eq_self {n : Int} (h1 : -32768 ≤ n) (h2 : n ≤ 32767) :
    wrap16 n = n := by
  unfold wrap16; omega

theorem wrap16_bounds (n : Int) : -32768 ≤ wrap16 n ∧ wrap16 n ≤ 32767 := by
  unfold wrap16; omega

theorem wrap16_neg_natAbs {v : Int} (h1 : -32768 ≤ v) (h2 : v ≤ 32767) :
    (wrap16 (-v)).natAbs = v.natAbs := by
  unfold wrap16; omega

theorem BOX_SIZE_eq : BOX_SIZE = 64 := rfl

theorem update_velocity_x (w : World) :
    w.update.velocity_x =
      if w.box_x ≤ 0 ∨ 320 < wrap16 (w.box_x + BOX_SIZE)
      then wrap16 (-w.velocity_x) else w.velocity_x := rfl

theorem update_velocity_y (w : World) :
    w.update.velocity_y =
      if w.box_y ≤ 0 ∨ 240 < wrap16 (w.box_y + BOX_SIZE)
      then wrap16 (-w.velocity_y) else w.velocity_y := rfl

theorem update_box_x (w : World) :
    w.update.box_x = wrap16 (w.box_x + w.update.velocity_x) := rfl

theorem update_box_y (w : World) :
    w.update.box_y = wrap16 (w.box_y + w.update.velocity_y) := rfl

/-- C1 counterexample.  At the state with box_x = 0 and velocity_x = -32768
(the minimal i16), the claimed flip condition box_x ≤ 0 holds and the input
x-velocity is negative, yet after World.update the x-velocity is unchanged
and still negative: i16 negation of -32768 wraps back to -32768, so the
sign is not flipped. -/
theorem update_flip_sign_cex :
    let w : World := ⟨0, 16, -32768, 1⟩
    w.box_x ≤ 0 ∧ w.velocity_x < 0 ∧
      (World.update w).velocity_x = w.velocity_x ∧ (World.update w).velocity_x < 0 := by
  decide

/-- C1 (amended).  For every well-formed World state in which the two
boundary tests and the four position sums box_x ± velocity_x,
box_y ± velocity_y stay within the i16 range, World.update flips the sign of velocity_x iff
box_x ≤ 0 or box_x + 64 > 320, flips the sign of velocity_y iff
box_y ≤ 0 or box_y + 64 > 240, and then (after any flips) sets box_x to
box_x + velocity_x and box_y to box_y + velocity_y; no other field changes
and no error occurs. -/
theorem update_spec (w : World) (hwf : w.wf)
    (hbx : w.box_x + 64 ≤ 32767) (hby : w.box_y + 64 ≤ 32767)
    (hpx1 : -32768 ≤ w.box_x + w.velocity_x) (hpx2 : w.box_x + w.velocity_x ≤ 32767)
    (hpx3 : -32768 ≤ w.box_x - w.velocity_x) (hpx4 : w.box_x - w.velocity_x ≤ 32767)
    (hpy1 : -32768 ≤ w.box_y + w.velocity_y) (hpy2 : w.box_y + w.velocity_y ≤ 32767)
    (hpy3 : -32768 ≤ w.box_y - w.velocity_y) (hpy4 : w.box_y - w.velocity_y ≤ 32767) :
    w.update.velocity_x =
      (if w.box_x ≤ 0 ∨ 320 < w.box_x + 64 then -w.velocity_x else w.velocity_x) ∧
    w.update.velocity_y =
      (if w.box_y ≤ 0 ∨ 240 < w.box_y + 64 then -w.velocity_y else w.velocity_y) ∧
    w.update.box_x = w.box_x + w.update.velocity_x ∧
    w.update.box_y = w.box_y + w.update.velocity_y := by
  obtain ⟨h1, h2, h3, h4, h5, h6, h7, h8⟩ := hwf
  have ex : wrap16 (w.box_x + BOX_SIZE) = w.box_x + 64 := by
    rw [BOX_SIZE_eq]; exact wrap16_eq_self (by omega) (by omega)
  have ey : wrap16 (w.box_y + BOX_SIZE) = w.box_y + 64 := by
    rw [BOX_SIZE_eq]; exact wrap16_eq_self (by omega) (by omega)
  have hvx' : w.update.velocity_x =
      if w.box_x ≤ 0 ∨ 320 < w.box_x + 64 then -w.velocity_x else w.velocity_x := by
    rw [update_velocity_x, ex]
    by_cases hc : w.box_x ≤ 0 ∨ 320 < w.box_x + 64
    · rw [if_pos hc, if_pos hc, wrap16_eq_self (by omega) (by omega)]
    · rw [if_neg hc, if_neg hc]
  have hvy' : w.update.velocity_y =
      if w.box_y ≤ 0 ∨ 240 < w.box_y + 64 then -w.velocity_y else w.velocity_y := by
    rw [update_velocity_y, ey]
    by_cases hc : w.box_y ≤ 0 ∨ 240 < w.box_y + 64
    · rw [if_pos hc, if_pos hc, wrap16_eq_self (by omega) (by omega)]
    · rw [if_neg hc, if_neg hc]
  refine ⟨hvx', hvy', ?_, ?_⟩
  · rw [update_box_x, hvx']
    by_cases hc : w.box_x ≤ 0 ∨ 320 < w.box_x + 64
    · rw [if_pos hc]; exact wrap16_eq_self (by omega) (by omega)
    · rw [if_neg hc]; exact wrap16_eq_self (by omega) (by omega)
  · rw [update_box_y, hvy']
    by_cases hc : w.box_y ≤ 0 ∨ 240 < w.box_y + 64
    · rw [if_pos hc]; exact wrap16_eq_self (by omega) (by omega)
    · rw [if_neg hc]; exact wrap16_eq_self (by omega) (by omega)

/-- Witness for update_spec at the initial state. -/
theorem update_spec_witness :
    (World.new.update.velocity_x =
      (if World.new.box_x ≤ 0 ∨ 320 < World.new.box_x + 64
       then -World.new.velocity_x else World.new.velocity_x) ∧
    World.new.update.velocity_y =
      (if World.new.box_y ≤ 0 ∨ 240 < World.new.box_y + 64
       then -World.new.velocity_y else World.new.velocity_y) ∧
    World.new.update.box_x = World.new.box_x + World.new.update.velocity_x ∧
    World.new.update.box_y = World.new.box_y + World.new.update.velocity_y) := by
  exact update_spec World.new (by decide) (by decide) (by decide)
    (by decide) (by decide) (by decide) (by decide) (by decide) (by decide)
    (by decide) (by decide)

/-- C3.  One World.update from the initial state box_x=24, box_y=16,
velocity_x=1, velocity_y=1 yields box_x=25, box_y=17 with both velocities
unchanged. -/
theorem update_initial_step :
    World.update ⟨24, 16, 1, 1⟩ = ⟨25, 17, 1, 1⟩ := by decide

/-- C9.  World.update preserves the absolute value of both velocity
components: it only ever negates a velocity (an i16 wrapping negation,
which preserves magnitude even at -32768), never changes its magnitude. -/
theorem update_preserves_speed (w : World) (hwf : w.wf) :
    w.update.velocity_x.natAbs = w.velocity_x.natAbs ∧
    w.update.velocity_y.natAbs = w.velocity_y.natAbs := by
  obtain ⟨h1, h2, h3, h4, h5, h6, h7, h8⟩ := hwf
  constructor
  · rw [update_velocity_x]
    by_cases hc : w.box_x ≤ 0 ∨ 320 < wrap16 (w.box_x + BOX_SIZE)
    · rw [if_pos hc]; exact wrap16_neg_natAbs h5 h6
    · rw [if_neg hc]
  · rw [update_velocity_y]
    by_cases hc : w.box_y ≤ 0 ∨ 240 < wrap16 (w.box_y + BOX_SIZE)
    · rw [if_pos hc]; exact wrap16_neg_natAbs h7 h8
    · rw [if_neg hc]

/-- Witness for update_preserves_speed at the initial state. -/
theorem update_preserves_speed_witness :
    World.new.update.velocity_x.natAbs = World.new.velocity_x.natAbs ∧
    World.new.update.velocity_y.natAbs = World.new.velocity_y.natAbs :=
  update_preserves_speed World.new (by decide)

/-- Inductive invariant of the reachable states of the bouncing box.  On
each axis the box either ascends with velocity 1 (position up to one past
the largest in-bounds coordinate) or descends with velocity -1. -/
def World.Inv (w : World) : Prop :=
  ((w.velocity_x = 1 ∧ 1 ≤ w.box_x ∧ w.box_x ≤ 257) ∨
    (w.velocity_x = -1 ∧ 0 ≤ w.box_x ∧ w.box_x ≤ 256)) ∧
  ((w.velocity_y = 1 ∧ 1 ≤ w.box_y ∧ w.box_y ≤ 177) ∨
    (w.velocity_y = -1 ∧ 0 ≤ w.box_y ∧ w.box_y ≤ 176))

theorem inv_new : World.Inv World.new := by
  unfold World.Inv World.new; norm_num

theorem inv_step {w : World} (h : w.Inv) : w.update.Inv := by
  obtain ⟨hx, hy⟩ := h
  constructor
  · have hb : wrap16 (w.box_x + BOX_SIZE) = w.box_x + 64 := by
      rw [BOX_SIZE_eq]
      rcases hx with ⟨_, h1, h2⟩ | ⟨_, h1, h2⟩ <;> exact wrap16_eq_self (by omega) (by omega)
    rcases hx with ⟨hv, h1, h2⟩ | ⟨hv, h1, h2⟩
    · by_cases hc : w.box_x ≤ 0 ∨ 320 < wrap16 (w.box_x + BOX_SIZE)
      · have hx257 : w.box_x = 257 := by rw [hb] at hc; omega
        have hvx : w.update.velocity_x = -1 := by
          rw [update_velocity_x, if_pos hc, hv]; decide
        refine Or.inr ⟨hvx, ?_, ?_⟩ <;>
          · rw [update_box_x, hvx, hx257, show wrap16 (257 + -1) = 256 from by decide] <;> omega
      · have hvx : w.update.velocity_x = 1 := by
          rw [update_velocity_x, if_neg hc, hv]
        have hx' : w.box_x ≤ 256 := by rw [hb] at hc; omega
        refine Or.inl ⟨hvx, ?_, ?_⟩ <;>
          · rw [update_box_x, hvx, wrap16_eq_self (by omega) (by omega)] <;> omega
    · by_cases hc : w.box_x ≤ 0 ∨ 320 < wrap16 (w.box_x + BOX_SIZE)
      · have hx0 : w.box_x = 0 := by rw [hb] at hc; omega
        have hvx : w.update.velocity_x = 1 := by
          rw [update_velocity_x, if_pos hc, hv]; decide
        refine Or.inl ⟨hvx, ?_, ?_⟩ <;>
          · rw [update_box_x, hvx, hx0, show wrap16 (0 + 1) = 1 from by decide] <;> omega
      · have hvx : w.update.velocity_x = -1 := by
          rw [update_velocity_x, if_neg hc, hv]
        have hx' : 1 ≤ w.box_x := by rw [hb] at hc; omega
        refine Or.inr ⟨hvx, ?_, ?_⟩ <;>
          · rw [update_box_x, hvx, wrap16_eq_self (by omega) (by omega)] <;> omega
  · have hb : wrap16 (w.box_y + BOX_SIZE) = w.box_y + 64 := by
      rw [BOX_SIZE_eq]
      rcases hy with ⟨_, h1, h2⟩ | ⟨_, h1, h2⟩ <;> exact wrap16_eq_self (by omega) (by omega)
    rcases hy with ⟨hv, h1, h2⟩ | ⟨hv, h1, h2⟩
    · by_cases hc : w.box_y ≤ 0 ∨ 240 < wrap16 (w.box_y + BOX_SIZE)
      · have hy177 : w.box_y = 177 := by rw [hb] at hc; omega
        have hvy : w.update.velocity_y = -1 := by
          rw [update_velocity_y, if_pos hc, hv]; decide
        refine Or.inr ⟨hvy, ?_, ?_⟩ <;>
          · rw [update_box_y, hvy, hy177, show wrap16 (177 + -1) = 176 from by decide] <;> omega
      · have hvy : w.update.velocity_y = 1 := by
          rw [update_velocity_y, if_neg hc, hv]
        have hy' : w.box_y ≤ 176 := by rw [hb] at hc; omega
        refine Or.inl ⟨hvy, ?_, ?_⟩ <;>
          · rw [update_box_y, hvy, wrap16_eq_self (by omega) (by omega)] <;> omega
    · by_cases hc : w.box_y ≤ 0 ∨ 240 < wrap16 (w.box_y + BOX_SIZE)
      · have hy0 : w.box_y = 0 := by rw [hb] at hc; omega
        have hvy : w.update.velocity_y = 1 := by
          rw [update_velocity_y, if_pos hc, hv]; decide
        refine Or.inl ⟨hvy, ?_, ?_⟩ <;>
          · rw [update_box_y, hvy, hy0, show wrap16 (0 + 1) = 1 from by decide] <;> omega
      · have hvy : w.update.velocity_y = -1 := by
          rw [update_velocity_y, if_neg hc, hv]
        have hy' : 1 ≤ w.box_y := by rw [hb] at hc; omega
        refine Or.inr ⟨hvy, ?_, ?_⟩ <;>
          · rw [update_box_y, hvy, wrap16_eq_self (by omega) (by omega)] <;> omega

theorem inv_iterate (n : Nat) : (World.update^[n] World.new).Inv := by
  induction n with
  | zero => exact inv_new
  | succ n ih => rw [Function.iterate_succ_apply']; exact inv_step ih

/-- Straight-line x-trajectory from the initial state: for the first 233
updates the box ascends one pixel per step on the x axis. -/
theorem traj_x (n : Nat) (hn : n ≤ 233) :
    (World.update^[n] World.new).box_x = 24 + (n : Int) ∧
    (World.update^[n] World.new).velocity_x = 1 := by
  induction n with
  | zero => simp [World.new]
  | succ n ih =>
    obtain ⟨hx, hv⟩ := ih (by omega)
    have hn' : (n : Int) ≤ 232 := by exact_mod_cast Nat.le_of_succ_le_succ hn
    rw [Function.iterate_succ_apply']
    have hb : wrap16 ((World.update^[n] World.new).box_x + BOX_SIZE) =
        88 + (n : Int) := by
      rw [hx, BOX_SIZE_eq, show (24 : Int) + n + 64 = 88 + n from by ring]
      exact wrap16_eq_self (by omega) (by omega)
    have hvx : (World.update^[n] World.new).update.velocity_x = 1 := by
      rw [update_velocity_x, hb, hv, if_neg (by rw [hx] <;> omega)]
    refine ⟨?_, hvx⟩
    rw [update_box_x, hvx, hx, wrap16_eq_self (by omega) (by omega)]
    push_cast; ring

/-- C2 counterexample.  After 233 updates from the initial state the box's
right edge passes the frame width: box_x = 257, so box_x + 64 = 321 > 320,
violating the claimed bound box_x + 64 ≤ 320. -/
theorem bounds_claim_cex :
    320 < (World.update^[233] World.new).box_x + 64 := by
  have h := (traj_x 233 le_rfl).1
  rw [h]; norm_num

/-- C2 (amended).  Every state reachable from the initial World by repeated
World.update satisfies 0 ≤ box_x, box_x + 64 ≤ 321, 0 ≤ box_y and
box_y + 64 ≤ 241: the left/top bounds hold exactly and the right/bottom
edges overshoot the frame by at most one pixel. -/
theorem update_iterates_in_bounds (n : Nat) :
    0 ≤ (World.update^[n] World.new).box_x ∧
    (World.update^[n] World.new).box_x + 64 ≤ 321 ∧
    0 ≤ (World.update^[n] World.new).box_y ∧
    (World.update^[n] World.new).box_y + 64 ≤ 241 := by
  obtain ⟨hx, hy⟩ := inv_iterate n
  rcases hx with ⟨_, h1, h2⟩ | ⟨_, h1, h2⟩ <;>
    rcases hy with ⟨_, h3, h4⟩ | ⟨_, h3, h4⟩ <;>
    exact ⟨by omega, by omega, by omega, by omega⟩


/-- Box fill colour [0x5e, 0x48, 0xe8, 0xff] from World::draw. -/
def boxColor : List Nat := [0x5e, 0x48, 0xe8, 0xff]

/-- Background colour [0x48, 0xb2, 0xe8, 0xff] from World::draw. -/
def backgroundColor : List Nat := [0x48, 0xb2, 0xe8, 0xff]

/-- The inside_the_box test of World::draw, on i16 pixel coordinates; the
additions box_x + BOX_SIZE and box_y + BOX_SIZE wrap as i16. -/
def insideBox (w : World) (x y : Int) : Bool :=
  decide (w.box_x ≤ x) && decide (x < wrap16 (w.box_x + BOX_SIZE)) &&
  decide (w.box_y ≤ y) && decide (y < wrap16 (w.box_y + BOX_SIZE))

/-- Colour written for chunk index i in World::draw:
x = (i % WIDTH) as i16, y = (i / WIDTH) as i16. -/
def rgbaAt (w : World) (i : Nat) : List Nat :=
  if insideBox w (wrap16 ((i % WIDTH : Nat) : Int)) (wrap16 ((i / WIDTH : Nat) : Int))
  then boxColor else backgroundColor

/-- World::draw, lib.rs lines 207-225: chunks_exact_mut(4) overwrites each
complete 4-byte chunk of the frame with the pixel colour and leaves any
trailing remainder (fewer than 4 bytes) untouched. -/
def drawAux (w : World) : Nat → List Nat → List Nat
  | i, _ :: _ :: _ :: _ :: rest => rgbaAt w i ++ drawAux w (i + 1) rest
  | _, rest => rest

/-- World::draw on a whole frame buffer. -/
def World.draw (w : World) (frame : List Nat) : List Nat := drawAux w 0 frame

theorem rgbaAt_length (w : World) (i : Nat) : (rgbaAt w i).length = 4 := by
  unfold rgbaAt; split <;> rfl

theorem drawAux_cons4 (w : World) (i a b c d : Nat) (rest : List Nat) :
    drawAux w i (a :: b :: c :: d :: rest) = rgbaAt w i ++ drawAux w (i + 1) rest := rfl

theorem drawAux_short (w : World) (i : Nat) {f : List Nat} (h : f.length < 4) :
    drawAux w i f = f := by
  match f with
  | [] => rfl
  | [_] => rfl
  | [_, _] => rfl
  | [_, _, _] => rfl
  | _ :: _ :: _ :: _ :: _ => simp only [List.length_cons] at h; omega

theorem drawAux_getElem_short (w : World) (i n : Nat) {f : List Nat} (h : f.length < 4) :
    (drawAux w i f)[n]? =
      if n < 4 * (f.length / 4) then (rgbaAt w (i + n / 4))[n % 4]? else f[n]? := by
  rw [drawAux_short w i h, if_neg (by omega)]

theorem drawAux_getElem (w : World) :
    ∀ (k : Nat) (f : List Nat), f.length ≤ k → ∀ (i n : Nat),
      (drawAux w i f)[n]? =
        if n < 4 * (f.length / 4) then (rgbaAt w (i + n / 4))[n % 4]? else f[n]? := by
  intro k
  induction k with
  | zero => intro f hf i n; exact drawAux_getElem_short w i n (by omega)
  | succ k ih =>
    intro f hf i n
    by_cases hshort : f.length < 4
    · exact drawAux_getElem_short w i n hshort
    · obtain ⟨a, b, c, d, rest, rfl⟩ : ∃ a b c d rest, f = a :: b :: c :: d :: rest := by
        match f with
        | [] => exact absurd (by simp) hshort
        | [_] => exact absurd (by simp) hshort
        | [_, _] => exact absurd (by simp) hshort
        | [_, _, _] => exact absurd (by simp) hshort
        | x :: y :: z :: u :: r => exact ⟨x, y, z, u, r, rfl⟩
      have hrest : rest.length ≤ k := by simp only [List.length_cons] at hf; omega
      rw [drawAux_cons4, List.getElem?_append, rgbaAt_length]
      by_cases hn : n < 4
      · rw [if_pos hn, if_pos (by simp only [List.length_cons]; omega),
            Nat.div_eq_of_lt hn, Nat.mod_eq_of_lt hn, Nat.add_zero]
      · push_neg at hn
        rw [if_neg (by omega)]
        obtain ⟨m, rfl⟩ : ∃ m, n = m + 4 := ⟨n - 4, by omega⟩
        rw [Nat.add_sub_cancel, ih rest hrest (i + 1) m]
        have hcons : (a :: b :: c :: d :: rest)[m + 4]? = rest[m]? := by
          rw [show m + 4 = m + 1 + 1 + 1 + 1 from by omega]
          simp
        refine if_congr ?_ ?_ hcons.symm
        · simp only [List.length_cons]; omega
        · rw [show i + 1 + m / 4 = i + (m + 4) / 4 from by omega,
              show m % 4 = (m + 4) % 4 from by omega]

theorem draw_getElem (w : World) (f : List Nat) (n : Nat) :
    (w.draw f)[n]? =
      if n < 4 * (f.length / 4) then (rgbaAt w (n / 4))[n % 4]? else f[n]? := by
  unfold World.draw
  rw [drawAux_getElem w f.length f le_rfl 0 n, Nat.zero_add]

theorem drawAux_length (w : World) :
    ∀ (k : Nat) (f : List Nat), f.length ≤ k → ∀ i, (drawAux w i f).length = f.length := by
  intro k
  induction k with
  | zero => intro f hf i; rw [drawAux_short w i (by omega)]
  | succ k ih =>
    intro f hf i
    by_cases hshort : f.length < 4
    · rw [drawAux_short w i hshort]
    · obtain ⟨a, b, c, d, rest, rfl⟩ : ∃ a b c d rest, f = a :: b :: c :: d :: rest := by
        match f with
        | [] => exact absurd (by simp) hshort
        | [_] => exact absurd (by simp) hshort
        | [_, _] => exact absurd (by simp) hshort
        | [_, _, _] => exact absurd (by simp) hshort
        | x :: y :: z :: u :: r => exact ⟨x, y, z, u, r, rfl⟩
      have hrest : rest.length ≤ k := by simp only [List.length_cons] at hf; omega
      rw [drawAux_cons4, List.length_append, rgbaAt_length, ih rest hrest (i + 1)]
      simp only [List.length_cons]; omega

theorem draw_length (w : World) (f : List Nat) : (w.draw f).length = f.length :=
  drawAux_length w f.length f le_rfl 0

theorem insideBox_iff (w : World) (hwf : w.wf) {x y : Int}
    (hx0 : 0 ≤ x) (hx : x < 320) (hy0 : 0 ≤ y) (hy : y < 240) :
    insideBox w x y = true ↔
      (w.box_x ≤ x ∧ x < w.box_x + 64 ∧ w.box_y ≤ y ∧ y < w.box_y + 64) := by
  obtain ⟨h1, h2, h3, h4, _, _, _, _⟩ := hwf
  unfold insideBox wrap16
  simp only [BOX_SIZE_eq, Bool.and_eq_true, decide_eq_true_eq]
  omega

theorem draw_byte (w : World) (hwf : w.wf) (f : List Nat)
    (hf : f.length = 320 * 240 * 4) (x y c : Nat)
    (hx : x < 320) (hy : y < 240) (hc : c < 4) :
    (w.draw f)[4 * (y * 320 + x) + c]? =
      (if w.box_x ≤ (x : Int) ∧ (x : Int) < w.box_x + 64 ∧
          w.box_y ≤ (y : Int) ∧ (y : Int) < w.box_y + 64
       then boxColor else backgroundColor)[c]? := by
  rw [draw_getElem, hf, if_pos (by omega),
      show (4 * (y * 320 + x) + c) / 4 = y * 320 + x from by omega,
      show (4 * (y * 320 + x) + c) % 4 = c from by omega]
  unfold rgbaAt
  rw [show (y * 320 + x) % WIDTH = x from by unfold WIDTH; omega,
      show (y * 320 + x) / WIDTH = y from by unfold WIDTH; omega,
      wrap16_eq_self (by omega) (by omega), wrap16_eq_self (by omega) (by omega)]
  by_cases hin : w.box_x ≤ (x : Int) ∧ (x : Int) < w.box_x + 64 ∧
      w.box_y ≤ (y : Int) ∧ (y : Int) < w.box_y + 64
  · rw [if_pos ((insideBox_iff w hwf (by omega) (by omega) (by omega) (by omega)).mpr hin),
        if_pos hin]
  · rw [if_neg ?hn, if_neg hin]
    case hn =>
      intro hb
      exact hin ((insideBox_iff w hwf (by omega) (by omega) (by omega) (by omega)).mp hb)

/-- C4.  For a frame buffer of length 320*240*4, World.draw writes at byte
offset 4*(y*320 + x) + c the component c of the box colour when the pixel
(x, y) lies in the box region and of the background colour otherwise; the
result does not depend on the buffer's prior contents. -/
theorem draw_pixel_colors (w : World) (hwf : w.wf) (f : List Nat)
    (hf : f.length = 320 * 240 * 4) (x y c : Nat)
    (hx : x < 320) (hy : y < 240) (hc : c < 4) :
    (w.draw f)[4 * (y * 320 + x) + c]? =
      (if w.box_x ≤ (x : Int) ∧ (x : Int) < w.box_x + 64 ∧
          w.box_y ≤ (y : Int) ∧ (y : Int) < w.box_y + 64
       then boxColor else backgroundColor)[c]? :=
  draw_byte w hwf f hf x y c hx hy hc

/-- Witness for draw_pixel_colors: pixel (0,0), component 0, on an all-zero
buffer from the initial state; (0,0) is outside the box, so the byte is the
background red component 0x48. -/
theorem draw_pixel_colors_witness :
    (World.new.draw (List.replicate (320 * 240 * 4) 0))[4 * (0 * 320 + 0) + 0]? =
      some 0x48 := by
  rw [draw_pixel_colors World.new (by decide) (List.replicate (320 * 240 * 4) 0)
      (List.length_replicate (320 * 240 * 4) 0) 0 0 0
      (by norm_num) (by norm_num) (by norm_num)]
  decide

/-- C5.  The buffer produced by World.draw on a full-size frame is a
function of the World state alone: two buffers of length 320*240*4 with
arbitrary different contents are mapped to identical outputs. -/
theorem draw_state_function (w : World) (f1 f2 : List Nat)
    (h1 : f1.length = 320 * 240 * 4) (h2 : f2.length = 320 * 240 * 4) :
    w.draw f1 = w.draw f2 := by
  apply List.ext_getElem?
  intro n
  rw [draw_getElem, draw_getElem, h1, h2]
  by_cases hn : n < 4 * (320 * 240 * 4 / 4)
  · rw [if_pos hn, if_pos hn]
  · rw [if_neg hn, if_neg hn, List.getElem?_eq_none (by omega),
        List.getElem?_eq_none (by omega)]

/-- Witness for draw_state_function on an all-zero and an all-one buffer. -/
theorem draw_state_function_witness :
    World.new.draw (List.replicate (320 * 240 * 4) 0) =
      World.new.draw (List.replicate (320 * 240 * 4) 1) :=
  draw_state_function World.new _ _ (List.length_replicate (320 * 240 * 4) 0)
    (List.length_replicate (320 * 240 * 4) 1)

/-- C6.  If no visible pixel lies in the box region, World.draw paints the
whole full-size frame with the background colour. -/
theorem draw_offscreen_background (w : World) (hwf : w.wf)
    (hoff : ∀ x y : Int, 0 ≤ x → x < 320 → 0 ≤ y → y < 240 →
      ¬(w.box_x ≤ x ∧ x < w.box_x + 64 ∧ w.box_y ≤ y ∧ y < w.box_y + 64))
    (f : List Nat) (hf : f.length = 320 * 240 * 4) (x y c : Nat)
    (hx : x < 320) (hy : y < 240) (hc : c < 4) :
    (w.draw f)[4 * (y * 320 + x) + c]? = backgroundColor[c]? := by
  rw [draw_byte w hwf f hf x y c hx hy hc,
      if_neg (hoff x y (by omega) (by omega) (by omega) (by omega))]

/-- Witness for draw_offscreen_background: a box at x = 400 is entirely to
the right of the 320-pixel-wide frame. -/
theorem draw_offscreen_background_witness :
    ((World.mk 400 0 1 1).draw (List.replicate (320 * 240 * 4) 9))[4 * (0 * 320 + 0) + 0]? =
      backgroundColor[0]? := by
  exact draw_offscreen_background ⟨400, 0, 1, 1⟩ (by decide)
    (by intro x y hx0 hx hy0 hy h; obtain ⟨ha, hb, hc, hd⟩ := h
        dsimp only at ha hb hc hd; omega)
    (List.replicate (320 * 240 * 4) 9) (List.length_replicate (320 * 240 * 4) 9) 0 0 0
    (by norm_num) (by norm_num) (by norm_num)

/-- C10.  World.draw on a buffer of any length preserves the length and
leaves every byte from offset 4*(length/4) on (the trailing length mod 4
bytes after the last complete 4-byte chunk) unchanged; it is a total
function, so it never fails or panics. -/
theorem draw_preserves_tail (w : World) (f : List Nat) :
    (w.draw f).length = f.length ∧
    ∀ n, 4 * (f.length / 4) ≤ n → (w.draw f)[n]? = f[n]? := by
  refine ⟨draw_length w f, fun n hn => ?_⟩
  rw [draw_getElem, if_neg (by omega)]

/-- Witness for draw_preserves_tail on a 6-byte buffer: the two trailing
bytes survive. -/
theorem draw_preserves_tail_witness :
    (World.new.draw [1, 2, 3, 4, 5, 6]).length = 6 ∧
      (World.new.draw [1, 2, 3, 4, 5, 6])[4]? = some 5 := by
  constructor
  · rw [(draw_preserves_tail World.new [1, 2, 3, 4, 5, 6]).1]; rfl
  · rw [(draw_preserves_tail World.new [1, 2, 3, 4, 5, 6]).2 4 (by norm_num)]; rfl

/-- Touch phases from winit relevant to the touch arm of the loop. -/
inductive TouchPhase
  | started
  | moved
  | ended
  | cancelled
deriving DecidableEq, Repr

/-- The events the closure in run (lib.rs lines 113-177) distinguishes.
All remaining winit events take the wildcard arm and are modelled by
other. -/
inductive Ev
  | resumed
  | suspended
  | redrawRequested
  | mainEventsCleared
  | closeRequested
  | touch (phase : TouchPhase)
  | keyboardInput
  | other
deriving DecidableEq, Repr

/-- Control flow of the event loop: poll (set at the top of every
iteration) or exit. -/
inductive ControlFlow
  | poll
  | exit
deriving DecidableEq, Repr

/-- Mutable state captured by the run closure: whether the Pixels render
surface is present (Resumed), the World, and the soft-keyboard flag. -/
structure LoopState where
  pixels : Bool
  world : World
  soft_keyboard : Bool
deriving DecidableEq, Repr

/-- Observable outcome of one invocation of the run closure. -/
structure StepResult where
  state : LoopState
  control : ControlFlow
  draws : Nat
  renders : Nat
  renderErrorLogs : Nat
  redrawRequests : Nat
  imeToggles : Nat
deriving DecidableEq, Repr

/-- One invocation of the event-loop closure of run (lib.rs lines 113-177)
on one event.  control_flow.set_poll() runs first; a Resumed event creates
the surface and a Suspended event destroys it before the match; the whole
match on the event runs only when the surface is present.  The render
outcome (success or failure) is an input, since it comes from the external
pixels library; draws, renders, log and redraw-request calls are counted
as observable effects. -/
def step (s : LoopState) (ev : Ev) (renderOk : Bool) : StepResult :=
  let pixels := if ev = Ev.resumed then true
                else if ev = Ev.suspended then false
                else s.pixels
  if pixels then
    match ev with
    | Ev.redrawRequested =>
      if renderOk then
        { state := ⟨pixels, s.world, s.soft_keyboard⟩, control := ControlFlow.poll,
          draws := 1, renders := 1, renderErrorLogs := 0, redrawRequests := 0,
          imeToggles := 0 }
      else
        { state := ⟨pixels, s.world, s.soft_keyboard⟩, control := ControlFlow.exit,
          draws := 1, renders := 1, renderErrorLogs := 1, redrawRequests := 0,
          imeToggles := 0 }
    | Ev.mainEventsCleared =>
      { state := ⟨pixels, s.world.update, s.soft_keyboard⟩, control := ControlFlow.poll,
        draws := 0, renders := 0, renderErrorLogs := 0, redrawRequests := 1,
        imeToggles := 0 }
    | Ev.closeRequested =>
      { state := ⟨pixels, s.world, s.soft_keyboard⟩, control := ControlFlow.exit,
        draws := 0, renders := 0, renderErrorLogs := 0, redrawRequests := 0,
        imeToggles := 0 }
    | Ev.touch phase =>
      if phase = TouchPhase.started then
        { state := ⟨pixels, s.world, !s.soft_keyboard⟩, control := ControlFlow.poll,
          draws := 0, renders := 0, renderErrorLogs := 0, redrawRequests := 0,
          imeToggles := 1 }
      else
        { state := ⟨pixels, s.world, s.soft_keyboard⟩, control := ControlFlow.poll,
          draws := 0, renders := 0, renderErrorLogs := 0, redrawRequests := 0,
          imeToggles := 0 }
    | _ =>
      { state := ⟨pixels, s.world, s.soft_keyboard⟩, control := ControlFlow.poll,
        draws := 0, renders := 0, renderErrorLogs := 0, redrawRequests := 0,
        imeToggles := 0 }
  else
    { state := ⟨pixels, s.world, s.soft_keyboard⟩, control := ControlFlow.poll,
      draws := 0, renders := 0, renderErrorLogs := 0, redrawRequests := 0,
      imeToggles := 0 }

/-- C7.  While the render surface is present, a redraw request draws and
attempts exactly one render; on failure the error is logged once and the
control flow is set to exit with no retry and no further work (no redraw
request, world untouched); on success the loop keeps polling and nothing
is logged. -/
theorem redraw_render_failure (s : LoopState) (hs : s.pixels = true) (b : Bool) :
    (step s Ev.redrawRequested b).draws = 1 ∧
    (step s Ev.redrawRequested b).renders = 1 ∧
    (step s Ev.redrawRequested b).redrawRequests = 0 ∧
    (step s Ev.redrawRequested b).state.world = s.world ∧
    (b = false →
      (step s Ev.redrawRequested b).control = ControlFlow.exit ∧
      (step s Ev.redrawRequested b).renderErrorLogs = 1) ∧
    (b = true →
      (step s Ev.redrawRequested b).control = ControlFlow.poll ∧
      (step s Ev.redrawRequested b).renderErrorLogs = 0) := by
  obtain ⟨p, w, k⟩ := s
  simp only at hs
  subst hs
  cases b <;> simp [step]

/-- Witness for redraw_render_failure: render failure while resumed exits
and logs. -/
theorem redraw_render_failure_witness :
    (step ⟨true, World.new, false⟩ Ev.redrawRequested false).control = ControlFlow.exit ∧
    (step ⟨true, World.new, false⟩ Ev.redrawRequested false).renderErrorLogs = 1 :=
  (redraw_render_failure ⟨true, World.new, false⟩ rfl false).2.2.2.2.1 rfl

/-- C8 counterexample.  While Suspended (surface absent) the whole event
match, including the CloseRequested arm, sits inside the
if-let-Some(pixels) block, so a close request is ignored: the control flow
stays poll instead of being set to exit. -/
theorem close_while_suspended_cex :
    (step ⟨false, World.new, false⟩ Ev.closeRequested true).control = ControlFlow.poll ∧
    (step ⟨false, World.new, false⟩ Ev.closeRequested true).control ≠ ControlFlow.exit := by
  decide

/-- C8 (amended).  While the render surface is present (Resumed), handling
a close request sets the loop's control flow to exit; while Suspended the
close request is ignored and the loop keeps polling. -/
theorem close_requested_exits (s : LoopState) (b : Bool) (hs : s.pixels = true) :
    (step s Ev.closeRequested b).control = ControlFlow.exit := by
  obtain ⟨p, w, k⟩ := s
  simp only at hs
  subst hs
  simp [step]

/-- Witness for close_requested_exits. -/
theorem close_requested_exits_witness :
    (step ⟨true, World.new, true⟩ Ev.closeRequested true).control = ControlFlow.exit :=
  close_requested_exits ⟨true, World.new, true⟩ true rfl
